import Mathlib

set_option maxHeartbeats 1000000
set_option maxRecDepth 8000
set_option linter.unusedVariables false

/-!
Verification of the nanodiff line-diff engine.

The development embeds, at the level of line sequences and character
streams, the two generations of the diff implementation found in the
repository:

* the `file_differ` architecture (`file_differ::do_diff` with the
  `eager_file_differ` and `lazy_file_differ` line sources, together with
  the `diff_file_stdout_eager` / `diff_file_stdout` entry points built on
  it) — modelled in namespace `Nanodiff` with entry points in namespace
  `Nanodiff.FileDiffer`;
* the older standalone `diff_file_stdout_eager` / `diff_file_stdout`
  functions of `nanodiff.cpp`, which do not share a matching engine —
  modelled in namespace `Nanodiff.Nano`.

File contents are `List Char`; `getline` models `std::getline` driven by
an `std::ifstream` whose observable state is the remaining characters and
the "not failed" flag (`operator bool`).
-/

namespace Nanodiff

/-- `diff_line_type` from nanodiff.h: the three kinds of diff events. -/
inductive diff_line_type where
  | context
  | expected_only
  | actual_only
deriving DecidableEq, Repr

/-- `diff_line` from nanodiff.h: one diff event, a line paired with its type. -/
structure diff_line where
  line : String
  type : diff_line_type
deriving DecidableEq, Repr

/-- Observable state of a `std::ifstream` being read line by line:
the characters not yet consumed and the `operator bool` state
(true while `failbit`/`badbit` are unset; `eofbit` alone keeps it true). -/
structure IfStream where
  rem : List Char
  good : Bool
deriving DecidableEq, Repr

def newlineChar : Char := '\n'

/-- Model of `std::getline(stream, line)`.
On a good stream with no characters left, nothing is extracted: the line is
empty and `failbit` is set.  Otherwise the line is everything up to the next
newline; the newline (if present) is consumed; reaching end-of-file after
extracting characters sets only `eofbit`, which keeps `operator bool` true. -/
def getline (s : IfStream) : String × IfStream :=
  if s.good then
    if s.rem.isEmpty then ("", ⟨[], false⟩)
    else (⟨s.rem.takeWhile (· != newlineChar)⟩,
          ⟨(s.rem.dropWhile (· != newlineChar)).drop 1, true⟩)
  else ("", s)

/-- Termination measure for loops that call `getline` while the stream is good. -/
def ifsMeas (s : IfStream) : Nat :=
  s.rem.length + (if s.good then 1 else 0)

/-- A line source in the sense of `file_differ`: `read` models the virtual
`read_expected_line` / `read_actual_line` ("produce the next line, or signal
exhaustion"), together with the facts that every successful read makes
progress and that a source that reported exhaustion stays exhausted. -/
structure LineSource (σ : Type) where
  read : σ → Option String × σ
  meas : σ → Nat
  read_decr : ∀ s l s', read s = (some l, s') → meas s' < meas s
  read_none : ∀ s s', read s = (none, s') → read s' = (none, s')

/-- `lazy_file_differ::read_*_line`: if the stream has not failed, perform one
`getline` and return its line (even when that `getline` itself fails, which
yields the final empty line); once the stream has failed, report exhaustion. -/
def lazyRead (s : IfStream) : Option String × IfStream :=
  if s.good then (some (getline s).1, (getline s).2) else (none, s)

/-- The lazy strategy's line source (`lazy_file_differ`). -/
def lazySource : LineSource IfStream where
  read := lazyRead
  meas := ifsMeas
  read_decr := by
    intro s l s' h
    unfold lazyRead at h
    split at h
    · rename_i hg
      injection h with h1 h2
      subst h2
      unfold getline ifsMeas
      rw [if_pos hg]
      by_cases he : s.rem.isEmpty
      · rw [if_pos he]
        rw [List.isEmpty_iff] at he
        simp [he, hg]
      · rw [if_neg he]
        rw [List.isEmpty_iff] at he
        have h1 : (s.rem.dropWhile (· != newlineChar)).length ≤ s.rem.length :=
          (List.dropWhile_suffix _).length_le
        have h2 : 0 < s.rem.length := List.length_pos.mpr he
        simp only [List.length_drop, hg, if_true]
        omega
    · exact absurd h (by simp)
  read_none := by
    intro s s' h
    unfold lazyRead at h ⊢
    split at h
    · exact absurd h (by simp)
    · rename_i hg
      injection h with h1 h2
      subst h2
      rw [if_neg hg]

/-- The hydration loop of `eager_file_differ`'s constructor (and of the
standalone eager implementation): `while (stream) { getline; push }`. -/
def read_all_lines (s : IfStream) : List String :=
  if h : s.good then (getline s).1 :: read_all_lines (getline s).2 else []
termination_by ifsMeas s
decreasing_by
  have hr : lazyRead s = (some (getline s).1, (getline s).2) := by unfold lazyRead; rw [if_pos h]
  exact lazySource.read_decr s (getline s).1 (getline s).2 hr

/-- The list of lines the reading loops produce from a file's raw contents. -/
def ifstreamLines (cs : List Char) : List String :=
  read_all_lines ⟨cs, true⟩

/-- `eager_file_differ::read_*_line`: a cursor over the hydrated line vector. -/
def eagerRead (st : List String × Nat) : Option String × (List String × Nat) :=
  if h : st.2 < st.1.length then (some (st.1.get ⟨st.2, h⟩), (st.1, st.2 + 1))
  else (none, st)

/-- The eager strategy's line source (`eager_file_differ`). -/
def eagerSource : LineSource (List String × Nat) where
  read := eagerRead
  meas := fun st => st.1.length - st.2
  read_decr := by
    intro s l s' h
    unfold eagerRead at h
    split at h
    · rename_i hlt
      injection h with h1 h2
      subst h2
      dsimp only
      omega
    · exact absurd h (by simp)
  read_none := by
    intro s s' h
    unfold eagerRead at h ⊢
    split at h
    · exact absurd h (by simp)
    · rename_i hlt
      injection h with h1 h2
      subst h2
      rw [dif_neg hlt]

/-- Reading from a plain list of lines: the common denotation of all sources. -/
def listRead : List String → Option String × List String
  | [] => (none, [])
  | l :: ls => (some l, ls)

/-- The line source whose state is just the list of lines still to deliver. -/
def listSource : LineSource (List String) where
  read := listRead
  meas := List.length
  read_decr := by
    intro s l s' h
    cases s with
    | nil => exact absurd h (by simp [listRead])
    | cons a as =>
      unfold listRead at h
      injection h with h1 h2
      subst h2
      simp
  read_none := by
    intro s s' h
    cases s with
    | nil =>
      unfold listRead at h
      injection h with h1 h2
      subst h2
      rfl
    | cons a as => exact absurd h (by simp [listRead])

/-- `std::ranges::find` over the pending buffer, as an index:
the first position whose line equals `E`, if any. -/
def findIndex (E : String) : List String → Option Nat
  | [] => none
  | l :: ls => if l = E then some 0 else (findIndex E ls).map (· + 1)

/-- The `output_diff` lambda shared by all implementations: set `has_diff` if
the pending `only_actual` lines are nonempty, emit them in order as
`actual_only` events, and clear the accumulator (the cleared accumulator is
implicit: callers pass the lines by value). -/
def output_diff (has_diff : Bool) (only_actual : List String) : List diff_line × Bool :=
  (only_actual.map (fun l => ⟨l, .actual_only⟩), has_diff || !only_actual.isEmpty)

/-- The inner `while` of `file_differ::do_diff`: pull lines from the actual
source, appending each to the buffer and checking only the newly appended
line against `E`, until a match is found or the source reports exhaustion. -/
def pull_matching {σ : Type} (src : LineSource σ) (E : String) (buf : List String) (s : σ) :
    Option Nat × List String × σ :=
  match h : src.read s with
  | (none, s') => (none, buf, s')
  | (some l, s') =>
    if l = E then (some buf.length, buf ++ [l], s')
    else pull_matching src E (buf ++ [l]) s'
termination_by src.meas s
decreasing_by exact src.read_decr s l s' h

/-- The whole match search of one `do_diff` iteration: first scan the existing
buffer from the start (`std::ranges::find`), then fall back to pulling. -/
def find_matching {σ : Type} (src : LineSource σ) (E : String) (buf : List String) (s : σ) :
    Option Nat × List String × σ :=
  match findIndex E buf with
  | some k => (some k, buf, s)
  | none => pull_matching src E buf s

/-- One iteration of `do_diff`'s outer loop body for expected line `E`:
on a match at index `k`, move the first `k` buffer lines into `only_actual`,
flush them via `output_diff`, emit a `context` event iff `has_diff` is then
true, and erase the first `k + 1` buffer lines; otherwise emit
`(E, expected_only)` and set `has_diff`. -/
def diff_step {σ : Type} (src : LineSource σ) (E : String) (buf : List String) (s : σ)
    (has_diff : Bool) : List diff_line × List String × σ × Bool :=
  match find_matching src E buf s with
  | (some k, buf', s') =>
    match output_diff has_diff (buf'.take k) with
    | (flushed, hd') =>
      (flushed ++ (if hd' then [⟨E, .context⟩] else []), buf'.drop (k + 1), s', hd')
  | (none, buf', s') => ([⟨E, .expected_only⟩], buf', s', true)

/-- `do_diff`'s outer loop: `while (expected_line) { ... }`. -/
def diff_loop {σe σa : Type} (srcE : LineSource σe) (srcA : LineSource σa)
    (se : σe) (sa : σa) (buf : List String) (has_diff : Bool) :
    List diff_line × List String × σa × Bool :=
  match h : srcE.read se with
  | (none, _) => ([], buf, sa, has_diff)
  | (some E, se') =>
    match diff_step srcA E buf sa has_diff with
    | (evs, buf', sa', hd') =>
      match diff_loop srcE srcA se' sa' buf' hd' with
      | (evs₂, buf₂, sa₂, hd₂) => (evs ++ evs₂, buf₂, sa₂, hd₂)
termination_by srcE.meas se
decreasing_by exact srcE.read_decr se E se' h

/-- `do_diff`'s final drain: read the actual source to exhaustion, emitting
each line as `actual_only` (without touching `has_diff`). -/
def drain_actual {σ : Type} (src : LineSource σ) (s : σ) : List diff_line :=
  match h : src.read s with
  | (none, _) => []
  | (some l, s') => ⟨l, .actual_only⟩ :: drain_actual src s'
termination_by src.meas s
decreasing_by exact src.read_decr s l s' h

/-- `file_differ::do_diff`: run the matching loop, then flush the remaining
buffer as `actual_only` events, then drain the actual source; return the
events in emission order together with the `has_diff` flag. -/
def do_diff {σe σa : Type} (srcE : LineSource σe) (srcA : LineSource σa)
    (se : σe) (sa : σa) : List diff_line × Bool :=
  match diff_loop srcE srcA se sa [] false with
  | (evs, buf, sa', hd) =>
    (evs ++ buf.map (fun l => ⟨l, .actual_only⟩) ++ drain_actual srcA sa', hd)

/-- The matching engine on plain line sequences: `do_diff` fed by list sources. -/
def doDiffList (expected actual : List String) : List diff_line × Bool :=
  do_diff listSource listSource expected actual

namespace FileDiffer

/-- The `diff_file_stdout_eager` entry point of the `file_differ` architecture:
hydrate both files into line vectors, then run the shared `do_diff` over
cursor line sources. -/
def diff_file_stdout_eager (expected actual : List Char) : List diff_line × Bool :=
  do_diff eagerSource eagerSource (ifstreamLines expected, 0) (ifstreamLines actual, 0)

/-- The `diff_file_stdout` entry point of the `file_differ` architecture:
run the shared `do_diff` directly over the two streams. -/
def diff_file_stdout (expected actual : List Char) : List diff_line × Bool :=
  do_diff lazySource lazySource ⟨expected, true⟩ ⟨actual, true⟩

end FileDiffer

namespace Nano

/-- The main loop of the standalone eager implementation
(nanodiff.cpp, `diff_file_stdout_eager`): runs while both the remaining
expected lines and the remaining actual lines are nonempty; on a match the
context event uses the matched actual element `*it`, whose value equals the
expected line.  Returns the emitted events, the leftover expected lines, the
leftover actual lines, and the flag. -/
def diffLoopEager : List String → List String → Bool →
    List diff_line × List String × List String × Bool
  | [], act, hd => ([], [], act, hd)
  | E :: es, [], hd => ([], E :: es, [], hd)
  | E :: es, a :: as, hd =>
    match findIndex E (a :: as) with
    | some k =>
      match output_diff hd ((a :: as).take k) with
      | (flushed, hd') =>
        match diffLoopEager es ((a :: as).drop (k + 1)) hd' with
        | (evs₂, le, la, hd₂) =>
          (flushed ++ (if hd' then [⟨E, .context⟩] else []) ++ evs₂, le, la, hd₂)
    | none =>
      match diffLoopEager es (a :: as) true with
      | (evs₂, le, la, hd₂) => (⟨E, .expected_only⟩ :: evs₂, le, la, hd₂)

/-- nanodiff.cpp `diff_file_stdout_eager`: hydrate both files, run the main
loop, then emit the leftover expected lines — with type `actual_only`, as
the code at nanodiff.cpp:197-202 does — and the leftover actual lines,
setting the flag when either leftover is nonempty. -/
def diff_file_stdout_eager (expected actual : List Char) : List diff_line × Bool :=
  match diffLoopEager (ifstreamLines expected) (ifstreamLines actual) false with
  | (evs, leftExp, leftAct, hd) =>
    (evs ++ leftExp.map (fun l => ⟨l, .actual_only⟩)
         ++ leftAct.map (fun l => ⟨l, .actual_only⟩),
     (hd || !leftExp.isEmpty) || !leftAct.isEmpty)

/-- The inner `while` of nanodiff.cpp `diff_file_stdout` (lines 245-253): it
calls `getline` with no exhaustion check, pushes the resulting line (which is
`""` once the stream has failed) and re-scans the whole buffer.  When the
stream has failed, the buffer holds no match and the pushed line `""`
differs from `E`, every further iteration repeats the same state: the C++
loop never exits.  That divergence is modelled by the result `none`. -/
def pullGo (E : String) (buf : List String) (s : IfStream) :
    Option (Nat × List String × IfStream) :=
  if h : s.good then
    match findIndex E (buf ++ [(getline s).1]) with
    | some k => some (k, buf ++ [(getline s).1], (getline s).2)
    | none => pullGo E (buf ++ [(getline s).1]) (getline s).2
  else
    match findIndex E (buf ++ [""]) with
    | some k => some (k, buf ++ [""], s)
    | none => none
termination_by ifsMeas s
decreasing_by
  have hr : lazyRead s = (some (getline s).1, (getline s).2) := by unfold lazyRead; rw [if_pos h]
  exact lazySource.read_decr s (getline s).1 (getline s).2 hr

/-- The whole match search of one iteration of nanodiff.cpp
`diff_file_stdout`: the initial whole-buffer `std::ranges::find` (line 244),
then the unchecked pull loop. -/
def pull (E : String) (buf : List String) (s : IfStream) :
    Option (Nat × List String × IfStream) :=
  match findIndex E buf with
  | some k => some (k, buf, s)
  | none => pullGo E buf s

/-- The outer `while (expected)` loop of nanodiff.cpp `diff_file_stdout`.
Since the inner loop exits only on a match, the `expected_only` branch at
nanodiff.cpp:268-271 is unreachable and the match branch always runs. -/
def diffLoopLazy : List String → List String → IfStream → Bool →
    Option (List diff_line × List String × IfStream × Bool)
  | [], buf, s, hd => some ([], buf, s, hd)
  | E :: es, buf, s, hd =>
    match pull E buf s with
    | none => none
    | some (k, buf', s') =>
      match output_diff hd (buf'.take k) with
      | (flushed, hd') =>
        match diffLoopLazy es (buf'.drop (k + 1)) s' hd' with
        | none => none
        | some (evs₂, b₂, s₂, hd₂) =>
          some (flushed ++ (if hd' then [⟨E, .context⟩] else []) ++ evs₂, b₂, s₂, hd₂)

/-- nanodiff.cpp `diff_file_stdout`: run the loop over the expected lines,
then flush the remaining buffer and drain the actual stream, all as
`actual_only`, without touching the flag.  `none` means the C++ function
does not terminate on these inputs. -/
def diff_file_stdout (expected actual : List Char) : Option (List diff_line × Bool) :=
  match diffLoopLazy (ifstreamLines expected) [] ⟨actual, true⟩ false with
  | none => none
  | some (evs, buf, s, hd) =>
    some (evs ++ buf.map (fun l => ⟨l, .actual_only⟩)
             ++ (read_all_lines s).map (fun l => ⟨l, .actual_only⟩), hd)

end Nano

/-- The semantic line sequence a source state still yields. -/
def srcLines {σ : Type} (src : LineSource σ) (s : σ) : List String :=
  match h : src.read s with
  | (none, _) => []
  | (some l, s') => l :: srcLines src s'
termination_by src.meas s
decreasing_by exact src.read_decr s l s' h

theorem srcLines_of_none {σ : Type} (src : LineSource σ) {s s₂ : σ}
    (h : src.read s = (none, s₂)) : srcLines src s = [] := by
  rw [srcLines]
  split
  next x heq => rfl
  next l x heq => rw [h] at heq; exact absurd heq (by simp)

theorem srcLines_of_some {σ : Type} (src : LineSource σ) {s s' : σ} {l : String}
    (h : src.read s = (some l, s')) : srcLines src s = l :: srcLines src s' := by
  rw [srcLines]
  split
  next x heq => rw [h] at heq; exact absurd heq (by simp)
  next l₂ x heq =>
    rw [h] at heq
    injection heq with h1 h2
    injection h1 with h1
    rw [h1, h2]

theorem pull_matching_of_none {σ : Type} (src : LineSource σ) (E : String) (buf : List String)
    {s s₂ : σ} (h : src.read s = (none, s₂)) :
    pull_matching src E buf s = (none, buf, s₂) := by
  rw [pull_matching]
  split
  next x heq =>
    rw [h] at heq
    injection heq with h1 h2
    rw [h2]
  next l x heq => rw [h] at heq; exact absurd heq (by simp)

theorem pull_matching_of_some_eq {σ : Type} (src : LineSource σ) (E : String) (buf : List String)
    {s s' : σ} (h : src.read s = (some E, s')) :
    pull_matching src E buf s = (some buf.length, buf ++ [E], s') := by
  rw [pull_matching]
  split
  next x heq => rw [h] at heq; exact absurd heq (by simp)
  next l x heq =>
    rw [h] at heq
    injection heq with h1 h2
    injection h1 with h1
    rw [h1, h2, if_pos rfl]

theorem pull_matching_of_some_ne {σ : Type} (src : LineSource σ) (E : String) (buf : List String)
    {s s' : σ} {l : String} (h : src.read s = (some l, s')) (hne : l ≠ E) :
    pull_matching src E buf s = pull_matching src E (buf ++ [l]) s' := by
  rw [pull_matching]
  split
  next x heq => rw [h] at heq; exact absurd heq (by simp)
  next l₂ x heq =>
    rw [h] at heq
    injection heq with h1 h2
    injection h1 with h1
    rw [h1] at hne
    rw [h1, h2, if_neg hne]

theorem diff_loop_of_none {σe σa : Type} (srcE : LineSource σe) (srcA : LineSource σa)
    {se se₂ : σe} (sa : σa) (buf : List String) (hd : Bool)
    (h : srcE.read se = (none, se₂)) :
    diff_loop srcE srcA se sa buf hd = ([], buf, sa, hd) := by
  rw [diff_loop]
  split
  next x heq => rfl
  next E x heq => rw [h] at heq; exact absurd heq (by simp)

theorem diff_loop_of_some {σe σa : Type} (srcE : LineSource σe) (srcA : LineSource σa)
    {se se' : σe} {E : String} (sa : σa) (buf : List String) (hd : Bool)
    (h : srcE.read se = (some E, se')) :
    diff_loop srcE srcA se sa buf hd =
      (match diff_step srcA E buf sa hd with
       | (evs, buf', sa', hd') =>
         match diff_loop srcE srcA se' sa' buf' hd' with
         | (evs₂, buf₂, sa₂, hd₂) => (evs ++ evs₂, buf₂, sa₂, hd₂)) := by
  rw [diff_loop]
  split
  next x heq => rw [h] at heq; exact absurd heq (by simp)
  next E₂ x heq =>
    rw [h] at heq
    injection heq with h1 h2
    injection h1 with h1
    rw [h1, h2]

theorem drain_actual_of_none {σ : Type} (src : LineSource σ) {s s₂ : σ}
    (h : src.read s = (none, s₂)) : drain_actual src s = [] := by
  rw [drain_actual]
  split
  next x heq => rfl
  next l x heq => rw [h] at heq; exact absurd heq (by simp)

theorem drain_actual_of_some {σ : Type} (src : LineSource σ) {s s' : σ} {l : String}
    (h : src.read s = (some l, s')) :
    drain_actual src s = ⟨l, .actual_only⟩ :: drain_actual src s' := by
  rw [drain_actual]
  split
  next x heq => rw [h] at heq; exact absurd heq (by simp)
  next l₂ x heq =>
    rw [h] at heq
    injection heq with h1 h2
    injection h1 with h1
    rw [h1, h2]

theorem findIndex_lt_length {E : String} : ∀ {l : List String} {k : Nat},
    findIndex E l = some k → k < l.length := by
  intro l
  induction l with
  | nil => intro k h; exact absurd h (by simp [findIndex])
  | cons a as ih =>
    intro k h
    unfold findIndex at h
    split at h
    · injection h with h
      rw [← h]
      simp
    · cases hk : findIndex E as with
      | none => rw [hk] at h; exact absurd h (by simp)
      | some k₀ =>
        rw [hk, Option.map_some'] at h
        injection h with h
        have := ih hk
        simp only [List.length_cons]
        omega

theorem findIndex_get {E : String} : ∀ {l : List String} {k : Nat},
    findIndex E l = some k → l.get? k = some E := by
  intro l
  induction l with
  | nil => intro k h; exact absurd h (by simp [findIndex])
  | cons a as ih =>
    intro k h
    unfold findIndex at h
    split at h
    · rename_i ha
      injection h with h
      rw [← h, ha]
      rfl
    · cases hk : findIndex E as with
      | none => rw [hk] at h; exact absurd h (by simp)
      | some k₀ =>
        rw [hk, Option.map_some'] at h
        injection h with h
        rw [← h]
        simpa using ih hk

theorem findIndex_earliest {E : String} : ∀ {l : List String} {k : Nat},
    findIndex E l = some k → ∀ j, j < k → l.get? j ≠ some E := by
  intro l
  induction l with
  | nil => intro k h; exact absurd h (by simp [findIndex])
  | cons a as ih =>
    intro k h j hj
    unfold findIndex at h
    split at h
    · injection h with h; omega
    · rename_i ha
      cases hk : findIndex E as with
      | none => rw [hk] at h; exact absurd h (by simp)
      | some k₀ =>
        rw [hk, Option.map_some'] at h
        injection h with h
        cases j with
        | zero => simpa using ha
        | succ j₀ =>
          have : j₀ < k₀ := by omega
          simpa using ih hk j₀ this

theorem findIndex_none_get {E : String} : ∀ {l : List String},
    findIndex E l = none → ∀ j, l.get? j ≠ some E := by
  intro l
  induction l with
  | nil => intro h j; simp
  | cons a as ih =>
    intro h j
    unfold findIndex at h
    split at h
    · exact absurd h (by simp)
    · rename_i ha
      cases hk : findIndex E as with
      | none =>
        cases j with
        | zero => simpa using ha
        | succ j₀ => simpa using ih hk j₀
      | some k₀ => rw [hk] at h; exact absurd h (by simp)

theorem findIndex_append_singleton {E l : String} : ∀ {buf : List String},
    findIndex E buf = none →
    findIndex E (buf ++ [l]) = if l = E then some buf.length else none := by
  intro buf
  induction buf with
  | nil =>
    intro h
    simp only [List.nil_append, List.length_nil]
    unfold findIndex
    split
    · rfl
    · rfl
  | cons a as ih =>
    intro h
    unfold findIndex at h
    split at h
    · exact absurd h (by simp)
    · rename_i ha
      have hnone : findIndex E as = none := by
        cases hk : findIndex E as with
        | none => rfl
        | some k₀ => rw [hk] at h; exact absurd h (by simp)
      show findIndex E (a :: (as ++ [l])) = _
      unfold findIndex
      rw [if_neg ha, ih hnone]
      by_cases hl : l = E
      · rw [if_pos hl, if_pos hl]
        simp
      · rw [if_neg hl, if_neg hl]
        rfl

theorem listSource_read_nil : listSource.read [] = (none, []) := rfl

theorem listSource_read_cons (l : String) (ls : List String) :
    listSource.read (l :: ls) = (some l, ls) := rfl

theorem srcLines_listSource : ∀ (ls : List String), srcLines listSource ls = ls := by
  intro ls
  induction ls with
  | nil => exact srcLines_of_none listSource listSource_read_nil
  | cons l ls ih => rw [srcLines_of_some listSource (listSource_read_cons l ls), ih]

theorem pull_matching_sim {σ : Type} (src : LineSource σ) (E : String) :
    ∀ (buf : List String) (s : σ),
      pull_matching listSource E buf (srcLines src s) =
        ((pull_matching src E buf s).1, (pull_matching src E buf s).2.1,
         srcLines src (pull_matching src E buf s).2.2) := by
  intro buf s
  induction buf, s using pull_matching.induct src E with
  | case1 buf s s' h =>
    rw [srcLines_of_none src h, pull_matching_of_none src E buf h,
        pull_matching_of_none listSource E buf listSource_read_nil]
    dsimp only
    rw [srcLines_of_none src (src.read_none s s' h)]
  | case2 buf s s' h =>
    rw [srcLines_of_some src h, pull_matching_of_some_eq src E buf h,
        pull_matching_of_some_eq listSource E buf (listSource_read_cons E (srcLines src s'))]
  | case3 buf s l s' h hne ih =>
    rw [srcLines_of_some src h, pull_matching_of_some_ne src E buf h hne,
        pull_matching_of_some_ne listSource E buf (listSource_read_cons l (srcLines src s')) hne]
    exact ih

theorem find_matching_sim {σ : Type} (src : LineSource σ) (E : String)
    (buf : List String) (s : σ) :
    find_matching listSource E buf (srcLines src s) =
      ((find_matching src E buf s).1, (find_matching src E buf s).2.1,
       srcLines src (find_matching src E buf s).2.2) := by
  unfold find_matching
  cases hf : findIndex E buf with
  | some k => rfl
  | none => exact pull_matching_sim src E buf s

theorem diff_step_sim {σ : Type} (src : LineSource σ) (E : String)
    (buf : List String) (s : σ) (hd : Bool) :
    diff_step listSource E buf (srcLines src s) hd =
      ((diff_step src E buf s hd).1, (diff_step src E buf s hd).2.1,
       srcLines src (diff_step src E buf s hd).2.2.1,
       (diff_step src E buf s hd).2.2.2) := by
  unfold diff_step
  rw [find_matching_sim src E buf s]
  rcases hfm : find_matching src E buf s with ⟨ro, b, s₂⟩
  cases ro with
  | none => rfl
  | some k => rfl

theorem diff_loop_sim {σe σa : Type} (srcE : LineSource σe) (srcA : LineSource σa) :
    ∀ (se : σe) (sa : σa) (buf : List String) (hd : Bool),
      diff_loop listSource listSource (srcLines srcE se) (srcLines srcA sa) buf hd =
        ((diff_loop srcE srcA se sa buf hd).1, (diff_loop srcE srcA se sa buf hd).2.1,
         srcLines srcA (diff_loop srcE srcA se sa buf hd).2.2.1,
         (diff_loop srcE srcA se sa buf hd).2.2.2) := by
  intro se sa buf hd
  induction se, sa, buf, hd using diff_loop.induct srcE srcA with
  | case1 se sa buf hd s' h =>
    rw [srcLines_of_none srcE h, diff_loop_of_none srcE srcA sa buf hd h,
        diff_loop_of_none listSource listSource (srcLines srcA sa) buf hd listSource_read_nil]
  | case2 se sa buf hd E se' h evsS bufS saS hdS hstep evsL bufL saL hdL hloop ih =>
    rw [srcLines_of_some srcE h,
        diff_loop_of_some listSource listSource (srcLines srcA sa) buf hd
          (listSource_read_cons E (srcLines srcE se')),
        diff_loop_of_some srcE srcA sa buf hd h,
        diff_step_sim srcA E buf sa hd, hstep]
    dsimp only
    rw [ih, hloop]

theorem drain_actual_map {σ : Type} (src : LineSource σ) :
    ∀ (s : σ), drain_actual src s = (srcLines src s).map (fun l => ⟨l, .actual_only⟩) := by
  intro s
  induction s using drain_actual.induct src with
  | case1 s s' h => rw [drain_actual_of_none src h, srcLines_of_none src h]; rfl
  | case2 s l s' h ih =>
    rw [drain_actual_of_some src h, srcLines_of_some src h, List.map_cons, ih]

theorem do_diff_sim {σe σa : Type} (srcE : LineSource σe) (srcA : LineSource σa)
    (se : σe) (sa : σa) :
    do_diff srcE srcA se sa = doDiffList (srcLines srcE se) (srcLines srcA sa) := by
  unfold doDiffList do_diff
  rw [diff_loop_sim srcE srcA se sa [] false]
  rcases hl : diff_loop srcE srcA se sa [] false with ⟨evs, buf, sa', hd⟩
  dsimp only
  rw [drain_actual_map srcA sa', drain_actual_map listSource (srcLines srcA sa'),
      srcLines_listSource]

theorem eagerSource_read : eagerSource.read = eagerRead := rfl

theorem lazySource_read : lazySource.read = lazyRead := rfl

theorem srcLines_eagerSource : ∀ (st : List String × Nat),
    srcLines eagerSource st = st.1.drop st.2 := by
  intro st
  induction st using srcLines.induct eagerSource with
  | case1 st s' h =>
    rw [srcLines_of_none eagerSource h]
    rw [eagerSource_read] at h
    unfold eagerRead at h
    split at h
    · exact absurd h (by simp)
    · rename_i hge
      rw [List.drop_eq_nil_iff.mpr (by omega)]
  | case2 st l s' h ih =>
    rw [srcLines_of_some eagerSource h, ih]
    rw [eagerSource_read] at h
    unfold eagerRead at h
    split at h
    · rename_i hlt
      injection h with h1 h2
      injection h1 with h1
      rw [← h1, ← h2]
      dsimp only
      rw [List.drop_eq_getElem_cons hlt]
      rfl
    · exact absurd h (by simp)

theorem srcLines_lazySource : ∀ (s : IfStream),
    srcLines lazySource s = read_all_lines s := by
  intro s
  induction s using srcLines.induct lazySource with
  | case1 s s' h =>
    rw [srcLines_of_none lazySource h]
    rw [lazySource_read] at h
    unfold lazyRead at h
    split at h
    · exact absurd h (by simp)
    · rename_i hg
      rw [read_all_lines, dif_neg hg]
  | case2 s l s' h ih =>
    rw [srcLines_of_some lazySource h, ih]
    rw [lazySource_read] at h
    unfold lazyRead at h
    split at h
    · rename_i hg
      injection h with h1 h2
      injection h1 with h1
      conv_rhs => rw [read_all_lines]
      rw [dif_pos hg, h1, h2]
    · exact absurd h (by simp)

/-- The eager entry point of the `file_differ` architecture equals the list
engine run on the hydrated line sequences. -/
theorem eager_entry_eq (expected actual : List Char) :
    FileDiffer.diff_file_stdout_eager expected actual =
      doDiffList (ifstreamLines expected) (ifstreamLines actual) := by
  unfold FileDiffer.diff_file_stdout_eager
  rw [do_diff_sim eagerSource eagerSource, srcLines_eagerSource, srcLines_eagerSource]
  dsimp only
  rw [List.drop_zero, List.drop_zero]

/-- The lazy entry point of the `file_differ` architecture equals the list
engine run on the line sequences the two streams denote. -/
theorem lazy_entry_eq (expected actual : List Char) :
    FileDiffer.diff_file_stdout expected actual =
      doDiffList (ifstreamLines expected) (ifstreamLines actual) := by
  unfold FileDiffer.diff_file_stdout
  rw [do_diff_sim lazySource lazySource, srcLines_lazySource, srcLines_lazySource]
  rfl

theorem diff_step_head_eq (x : String) (rest : List String) :
    diff_step listSource x [] (x :: rest) false = ([], [], rest, false) := by
  unfold diff_step find_matching
  rw [show findIndex x [] = none from rfl,
      pull_matching_of_some_eq listSource x [] (listSource_read_cons x rest)]
  rfl

theorem diff_loop_self : ∀ (l : List String),
    diff_loop listSource listSource l l [] false = ([], [], [], false) := by
  intro l
  induction l with
  | nil => exact diff_loop_of_none listSource listSource [] [] false listSource_read_nil
  | cons x xs ih =>
    rw [diff_loop_of_some listSource listSource (x :: xs) [] false (listSource_read_cons x xs),
        diff_step_head_eq x xs]
    dsimp only
    rw [ih]
    rfl

theorem doDiffList_self (l : List String) : doDiffList l l = ([], false) := by
  unfold doDiffList do_diff
  rw [diff_loop_self l]
  dsimp only
  rw [drain_actual_of_none listSource listSource_read_nil]
  rfl

theorem doDiffList_cons_eq (x : String) (e a : List String) :
    doDiffList (x :: e) (x :: a) = doDiffList e a := by
  unfold doDiffList do_diff
  rw [diff_loop_of_some listSource listSource (x :: a) [] false (listSource_read_cons x e),
      diff_step_head_eq x a]
  dsimp only
  rcases hl : diff_loop listSource listSource e a [] false with ⟨evs, buf, sa, hd⟩
  rfl

theorem pull_matching_spec {σ : Type} (src : LineSource σ) (E : String) :
    ∀ (buf : List String) (s : σ) (k : Nat) (bl : List String) (s₂ : σ),
      findIndex E buf = none → pull_matching src E buf s = (some k, bl, s₂) →
        bl.get? k = some E ∧ ∀ j, j < k → bl.get? j ≠ some E := by
  intro buf s
  induction buf, s using pull_matching.induct src E with
  | case1 buf s s' h =>
    intro k bl s₂ hnone hp
    rw [pull_matching_of_none src E buf h] at hp
    exact absurd hp (by simp)
  | case2 buf s s' h =>
    intro k bl s₂ hnone hp
    rw [pull_matching_of_some_eq src E buf h] at hp
    injection hp with h1 hrest
    injection hrest with h2 h3
    injection h1 with h1
    subst h1
    subst h2
    constructor
    · exact List.get?_concat_length buf E
    · intro j hj
      rw [List.get?_append hj]
      exact findIndex_none_get hnone j
  | case3 buf s l s' h hne ih =>
    intro k bl s₂ hnone hp
    rw [pull_matching_of_some_ne src E buf h hne] at hp
    have hnone' : findIndex E (buf ++ [l]) = none := by
      rw [findIndex_append_singleton hnone, if_neg hne]
    exact ih k bl s₂ hnone' hp

theorem diff_step_ctx_flag {σ : Type} (src : LineSource σ) (E : String)
    (buf : List String) (s : σ) (hd : Bool) (l : String) :
    (⟨l, diff_line_type.context⟩ : diff_line) ∈ (diff_step src E buf s hd).1 →
      (diff_step src E buf s hd).2.2.2 = true := by
  intro hmem
  unfold diff_step at hmem ⊢
  rcases hfm : find_matching src E buf s with ⟨ro, bl, s₂⟩
  rw [hfm] at hmem
  cases ro with
  | none => rfl
  | some k =>
    dsimp only [output_diff] at hmem ⊢
    cases hhd : (hd || !(bl.take k).isEmpty) with
    | true => rfl
    | false =>
      rw [hhd] at hmem
      simp at hmem
      rw [← List.map_take] at hmem
      rcases List.mem_map.mp hmem with ⟨x, hx, hxe⟩
      exact absurd (congrArg diff_line.type hxe) (by simp)

theorem diff_loop_first_not_ctx {σe σa : Type} (srcE : LineSource σe) (srcA : LineSource σa) :
    ∀ (se : σe) (sa : σa) (buf : List String) (hd : Bool), hd = false →
      ∀ d, ((diff_loop srcE srcA se sa buf hd).1).head? = some d →
        d.type ≠ diff_line_type.context := by
  intro se sa buf hd
  induction se, sa, buf, hd using diff_loop.induct srcE srcA with
  | case1 se sa buf hd s' h =>
    intro hhd d hh
    rw [diff_loop_of_none srcE srcA sa buf hd h] at hh
    exact absurd hh (by simp)
  | case2 se sa buf hd E se' h evsS bufS saS hdS hstep evsL bufL saL hdL hloop ih =>
    intro hhd d hh
    subst hhd
    rw [diff_loop_of_some srcE srcA sa buf false h, hstep] at hh
    dsimp only at hh
    rw [hloop] at hh
    dsimp only at hh
    unfold diff_step at hstep
    rcases hfm : find_matching srcA E buf sa with ⟨ro, bl, s₂⟩
    rw [hfm] at hstep
    cases ro with
    | none =>
      dsimp only at hstep
      injection hstep with h1 hrest
      rw [← h1] at hh
      rw [List.cons_append, List.head?_cons] at hh
      injection hh with hh
      rw [← hh]
      simp
    | some k =>
      dsimp only [output_diff] at hstep
      injection hstep with h1 hrest
      injection hrest with h2 hrest2
      injection hrest2 with h3 h4
      cases htk : bl.take k with
      | nil =>
        rw [htk] at h1 h4
        simp only [List.map_nil, List.isEmpty_nil, Bool.not_true, Bool.or_false,
          Bool.false_or] at h1 h4
        rw [if_neg (by simp)] at h1
        rw [List.nil_append] at h1
        rw [← h1, List.nil_append] at hh
        have hds : hdS = false := h4.symm
        have ih' := ih hds d
        rw [hloop] at ih'
        exact ih' hh
      | cons y ys =>
        rw [htk] at h1
        rw [List.map_cons] at h1
        rw [← h1] at hh
        simp only [List.cons_append, List.head?_cons] at hh
        injection hh with hh
        rw [← hh]
        simp

theorem doDiffList_head_not_ctx (e a : List String) :
    ∀ d, ((doDiffList e a).1).head? = some d → d.type ≠ diff_line_type.context := by
  intro d hh
  unfold doDiffList do_diff at hh
  rcases hl : diff_loop listSource listSource e a [] false with ⟨evs, buf, sa, hd⟩
  rw [hl] at hh
  dsimp only at hh
  cases hevs : evs with
  | cons y ys =>
    have hfirst := diff_loop_first_not_ctx listSource listSource e a [] false rfl d
    rw [hl] at hfirst
    apply hfirst
    rw [hevs] at hh ⊢
    simpa using hh
  | nil =>
    rw [hevs, List.nil_append] at hh
    cases hbuf : buf with
    | cons z zs =>
      rw [hbuf] at hh
      simp at hh
      rw [← hh]
      simp
    | nil =>
      rw [hbuf] at hh
      simp only [List.map_nil, List.nil_append] at hh
      rw [drain_actual_map listSource sa] at hh
      cases hs : srcLines listSource sa with
      | nil => rw [hs] at hh; exact absurd hh (by simp)
      | cons w ws =>
        rw [hs] at hh
        simp at hh
        rw [← hh]
        simp

theorem ifstreamLines_nil : ifstreamLines [] = [""] := by
  simp [ifstreamLines, read_all_lines, getline]

theorem ifstreamLines_cons_nl (cs : List Char) :
    ifstreamLines (newlineChar :: cs) = "" :: ifstreamLines cs := by
  unfold ifstreamLines
  conv_lhs => rw [read_all_lines]
  simp [getline]

theorem ifstreamLines_cons_ne (c : Char) (hc : c ≠ newlineChar) (a : Char) (t : List Char) :
    ifstreamLines (c :: a :: t) =
      List.modifyHead (fun l => ⟨c :: l.data⟩) (ifstreamLines (a :: t)) := by
  have hb : (c != newlineChar) = true := bne_iff_ne.mpr hc
  unfold ifstreamLines
  conv_lhs => rw [read_all_lines]
  conv_rhs => rw [read_all_lines]
  simp [getline, hb]

theorem ifstreamLines_append_nl :
    ∀ (cs : List Char), cs ≠ [] → cs.getLast? ≠ some newlineChar →
      ifstreamLines (cs ++ [newlineChar]) = ifstreamLines cs := by
  intro cs
  induction cs with
  | nil => intro h; exact absurd rfl h
  | cons c t ih =>
    intro _ hlast
    cases t with
    | nil =>
      have hc : c ≠ newlineChar := by
        intro hce
        apply hlast
        rw [hce]
        rfl
      have hb : (c != newlineChar) = true := bne_iff_ne.mpr hc
      show ifstreamLines [c, newlineChar] = ifstreamLines [c]
      simp [ifstreamLines, read_all_lines, getline, hb]
    | cons a t' =>
      have hlast' : (a :: t').getLast? ≠ some newlineChar := by
        rwa [List.getLast?_cons_cons] at hlast
      by_cases hc : c = newlineChar
      · subst hc
        rw [show (newlineChar :: a :: t') ++ [newlineChar] =
              newlineChar :: ((a :: t') ++ [newlineChar]) from rfl,
            ifstreamLines_cons_nl, ifstreamLines_cons_nl,
            ih (by simp) hlast']
      · rw [show (c :: a :: t') ++ [newlineChar] = c :: (a :: (t' ++ [newlineChar])) from rfl,
            ifstreamLines_cons_ne c hc a (t' ++ [newlineChar]),
            ifstreamLines_cons_ne c hc a t',
            show a :: (t' ++ [newlineChar]) = (a :: t') ++ [newlineChar] from rfl,
            ih (by simp) hlast']

/-- Claim C1, counterexample: the standalone entry points of nanodiff.cpp do
not produce identical event sequences and HasDiff results.  On expected file
contents `"a\n\n"` and actual file contents `"a"`, the eager function emits
one `actual_only` event and returns true, while the lazy function emits no
event and returns false. -/
theorem claim_C1_counterexample :
    Nano.diff_file_stdout_eager ['a', '\n', '\n'] ['a'] =
      ([⟨"", diff_line_type.actual_only⟩], true)
    ∧ Nano.diff_file_stdout ['a', '\n', '\n'] ['a'] = some ([], false)
    ∧ some (Nano.diff_file_stdout_eager ['a', '\n', '\n'] ['a']) ≠
        Nano.diff_file_stdout ['a', '\n', '\n'] ['a'] := by
  have h1 : Nano.diff_file_stdout_eager ['a', '\n', '\n'] ['a'] =
      ([⟨"", diff_line_type.actual_only⟩], true) := by
    simp [Nano.diff_file_stdout_eager, Nano.diffLoopEager, findIndex, output_diff,
          ifstreamLines, read_all_lines, getline, newlineChar]
  have h2 : Nano.diff_file_stdout ['a', '\n', '\n'] ['a'] = some ([], false) := by
    simp [Nano.diff_file_stdout, Nano.diffLoopLazy, Nano.pull, Nano.pullGo, findIndex,
          output_diff, ifstreamLines, read_all_lines, getline, newlineChar]
  exact ⟨h1, h2, by rw [h1, h2]; simp⟩

/-- Claim C1 (amended): for every pair of file contents, the entry points
that share `file_differ::do_diff` — `diff_file_stdout` (lazy sources) and
`diff_file_stdout_eager` (hydrated cursor sources) — invoke the sink with
identical ordered event sequences and return identical HasDiff booleans. -/
theorem claim_C1 (expected actual : List Char) :
    FileDiffer.diff_file_stdout expected actual =
      FileDiffer.diff_file_stdout_eager expected actual := by
  rw [lazy_entry_eq, eager_entry_eq]

/-- Claim C2: the claim fails on the `file_differ` engine.  With an empty
expected file and an actual file holding one newline, both `file_differ`
entry points emit the event `("", actual_only)` in the final drain yet
return HasDiff = false, because the drain after the main loop never sets the
flag; the legacy eager implementation returns true here, which matches the
spec's stated contract. -/
theorem claim_C2 :
    FileDiffer.diff_file_stdout [] ['\n'] = ([⟨"", diff_line_type.actual_only⟩], false)
    ∧ FileDiffer.diff_file_stdout_eager [] ['\n'] = ([⟨"", diff_line_type.actual_only⟩], false)
    ∧ Nano.diff_file_stdout_eager [] ['\n'] = ([⟨"", diff_line_type.actual_only⟩], true) := by
  refine ⟨?_, ?_, ?_⟩
  · simp [FileDiffer.diff_file_stdout, do_diff, diff_loop, diff_step, find_matching, findIndex,
          pull_matching, output_diff, drain_actual, lazySource, lazyRead, getline, newlineChar]
  · simp [FileDiffer.diff_file_stdout_eager, do_diff, diff_loop, diff_step, find_matching,
          findIndex, pull_matching, output_diff, drain_actual, eagerSource, eagerRead,
          ifstreamLines, read_all_lines, getline, newlineChar]
  · simp [Nano.diff_file_stdout_eager, Nano.diffLoopEager, findIndex, output_diff,
          ifstreamLines, read_all_lines, getline, newlineChar]

/-- Claim C3: the `file_differ` engine behaves as claimed — an expected line
unmatched after the actual source is exhausted yields `(E, expected_only)` —
but the legacy eager implementation of nanodiff.cpp emits expected lines
left over when the actual buffer empties with type `actual_only` (line 200).
On expected `"a\n\n"` vs actual `"a"` the unmatched final empty expected
line is emitted as `actual_only` by the legacy code and as `expected_only`
by `file_differ::do_diff`. -/
theorem claim_C3 :
    Nano.diff_file_stdout_eager ['a', '\n', '\n'] ['a'] =
      ([⟨"", diff_line_type.actual_only⟩], true)
    ∧ FileDiffer.diff_file_stdout_eager ['a', '\n', '\n'] ['a'] =
        ([⟨"", diff_line_type.expected_only⟩], true) := by
  constructor
  · simp [Nano.diff_file_stdout_eager, Nano.diffLoopEager, findIndex, output_diff,
          ifstreamLines, read_all_lines, getline, newlineChar]
  · simp [FileDiffer.diff_file_stdout_eager, do_diff, diff_loop, diff_step, find_matching,
          findIndex, pull_matching, output_diff, drain_actual, eagerSource, eagerRead,
          ifstreamLines, read_all_lines, getline, newlineChar]

/-- Claim C4: the `file_differ` engine terminates on all inputs (its match
search breaks on exhaustion), but the inner loop of the legacy
`diff_file_stdout` of nanodiff.cpp (lines 245-253) never checks the actual
stream for exhaustion: on expected `"x"` vs an empty actual file it pushes
`""` forever, so the invocation does not run to completion — modelled by the
result `none`.  The `file_differ` lazy entry point on the same input
terminates with `expected_only("x")`, `context("")` and HasDiff = true. -/
theorem claim_C4 :
    Nano.diff_file_stdout ['x'] [] = none
    ∧ FileDiffer.diff_file_stdout ['x'] [] =
        ([⟨"x", diff_line_type.expected_only⟩, ⟨"", diff_line_type.context⟩], true) := by
  constructor
  · simp [Nano.diff_file_stdout, Nano.diffLoopLazy, Nano.pull, Nano.pullGo, findIndex,
          output_diff, ifstreamLines, read_all_lines, getline, newlineChar]
  · simp [FileDiffer.diff_file_stdout, do_diff, diff_loop, diff_step, find_matching, findIndex,
          pull_matching, output_diff, drain_actual, lazySource, lazyRead, getline, newlineChar]

/-- Claim C5, counterexample: the skipped `actual_only` lines are NOT emitted
before the `expected_only` event of the expected line that failed to match
them.  On expected `"3\n4"` vs actual `"X\n4"`, the line `X` is skipped
while searching for `"3"`; the search exhausts the source, `("3",
expected_only)` is emitted first, and `("X", actual_only)` is emitted only
later, when `"4"` matches. -/
theorem claim_C5_counterexample :
    FileDiffer.diff_file_stdout ['3', '\n', '4'] ['X', '\n', '4'] =
      ([⟨"3", diff_line_type.expected_only⟩, ⟨"X", diff_line_type.actual_only⟩,
        ⟨"4", diff_line_type.context⟩, ⟨"", diff_line_type.context⟩], true) := by
  simp [FileDiffer.diff_file_stdout, do_diff, diff_loop, diff_step, find_matching, findIndex,
        pull_matching, output_diff, drain_actual, lazySource, lazyRead, getline, newlineChar]

/-- Claim C5 (amended): within one matching step, all skipped lines are
emitted as `actual_only` immediately before the `context` event (when that
is emitted); an expected line whose search ends by exhaustion is emitted as
`expected_only` at once — before, not after, its skipped lines, which remain
in the buffer for later emission. -/
theorem claim_C5 :
    (∀ {σ : Type} (src : LineSource σ) (E : String) (buf : List String) (s : σ) (hd : Bool)
        (k : Nat) (bl : List String) (s₂ : σ),
      find_matching src E buf s = (some k, bl, s₂) →
        (diff_step src E buf s hd).1 =
          (bl.take k).map (fun l => ⟨l, diff_line_type.actual_only⟩)
            ++ (if hd || !(bl.take k).isEmpty then [⟨E, diff_line_type.context⟩] else []))
    ∧ (∀ {σ : Type} (src : LineSource σ) (E : String) (buf : List String) (s : σ) (hd : Bool)
        (bl : List String) (s₂ : σ),
      find_matching src E buf s = (none, bl, s₂) →
        (diff_step src E buf s hd).1 = [⟨E, diff_line_type.expected_only⟩]
        ∧ (diff_step src E buf s hd).2.1 = bl) := by
  constructor
  · intro σ src E buf s hd k bl s₂ h
    unfold diff_step
    rw [h]
    dsimp only [output_diff]
  · intro σ src E buf s hd bl s₂ h
    unfold diff_step
    rw [h]
    exact ⟨rfl, rfl⟩

/-- Claim C5, witness: both parts of the amended claim instantiated on
concrete searches over the list source. -/
theorem claim_C5_witness :
    (diff_step listSource "b" ["x", "b"] [] true).1 =
      ([⟨"x", diff_line_type.actual_only⟩] ++ [⟨"b", diff_line_type.context⟩])
    ∧ (diff_step listSource "z" ["x"] [] false).1 = [⟨"z", diff_line_type.expected_only⟩] := by
  constructor
  · have h := claim_C5.1 listSource "b" ["x", "b"] [] true 1 ["x", "b"] []
      (by simp [find_matching, findIndex])
    rw [h]
    simp
  · have h := (claim_C5.2 listSource "z" ["x"] [] false ["x"] []
      (by simp [find_matching, findIndex, pull_matching_of_none listSource "z" ["x"]
                  listSource_read_nil])).1
    rw [h]

/-- Claim C6: element-wise identical line sequences (including two empty
sequences) produce zero events and HasDiff = false, both for the list-level
engine and for the two `file_differ` entry points on identical file
contents. -/
theorem claim_C6 :
    (∀ (l : List String), doDiffList l l = ([], false))
    ∧ (∀ (c : List Char), FileDiffer.diff_file_stdout_eager c c = ([], false)
        ∧ FileDiffer.diff_file_stdout c c = ([], false)) := by
  refine ⟨doDiffList_self, fun c => ⟨?_, ?_⟩⟩
  · rw [eager_entry_eq]
    exact doDiffList_self _
  · rw [lazy_entry_eq]
    exact doDiffList_self _

/-- Claim C7: whenever the match search succeeds at index `k`, the final
buffer holds `E` at `k` and at no smaller index: the engine always matches
the earliest unconsumed occurrence. -/
theorem claim_C7 {σ : Type} (src : LineSource σ) (E : String) (buf : List String) (s : σ)
    (k : Nat) (bl : List String) (s₂ : σ)
    (h : find_matching src E buf s = (some k, bl, s₂)) :
    bl.get? k = some E ∧ ∀ j, j < k → bl.get? j ≠ some E := by
  unfold find_matching at h
  cases hfi : findIndex E buf with
  | some k₀ =>
    rw [hfi] at h
    injection h with h1 hrest
    injection hrest with h2 h3
    injection h1 with h1
    subst h1
    subst h2
    exact ⟨findIndex_get hfi, fun j hj => findIndex_earliest hfi j hj⟩
  | none =>
    rw [hfi] at h
    exact pull_matching_spec src E buf s k bl s₂ hfi h

/-- Claim C7, witness: with the buffer `["a", "b", "c", "b"]` and expected
line `"b"`, the search matches index 1 (the earliest occurrence), whose
prefix holds no `"b"`. -/
theorem claim_C7_witness :
    (["a", "b", "c", "b"] : List String).get? 1 = some "b"
    ∧ ∀ j, j < 1 → (["a", "b", "c", "b"] : List String).get? j ≠ some "b" :=
  claim_C7 listSource "b" ["a", "b", "c", "b"] [] 1 ["a", "b", "c", "b"] []
    (by simp [find_matching, findIndex])

/-- Claim C8: a context event is emitted by a matching step only if HasDiff
is true at that moment (the step's resulting flag is true); the first event
of any engine run is never a context event; and a leading pair of identical
lines produces no events at all (the run equals the run on the tails). -/
theorem claim_C8 :
    (∀ {σ : Type} (src : LineSource σ) (E : String) (buf : List String) (s : σ) (hd : Bool)
        (l : String),
      (⟨l, diff_line_type.context⟩ : diff_line) ∈ (diff_step src E buf s hd).1 →
        (diff_step src E buf s hd).2.2.2 = true)
    ∧ (∀ (e a : List String) (d : diff_line),
        ((doDiffList e a).1).head? = some d → d.type ≠ diff_line_type.context)
    ∧ (∀ (x : String) (e a : List String), doDiffList (x :: e) (x :: a) = doDiffList e a) := by
  refine ⟨?_, ?_, ?_⟩
  · intro σ src E buf s hd l hmem
    exact diff_step_ctx_flag src E buf s hd l hmem
  · intro e a d hh
    exact doDiffList_head_not_ctx e a d hh
  · intro x e a
    exact doDiffList_cons_eq x e a

/-- Claim C8, witness: a step that emits a context event has flag true, and
the head event of a concrete diff run is not a context event. -/
theorem claim_C8_witness :
    (diff_step listSource "b" ["b"] [] true).2.2.2 = true
    ∧ (⟨"x", diff_line_type.expected_only⟩ : diff_line).type ≠ diff_line_type.context := by
  constructor
  · exact claim_C8.1 listSource "b" ["b"] [] true "b"
      (by simp [diff_step, find_matching, findIndex, output_diff])
  · exact claim_C8.2.1 ["x"] [] ⟨"x", diff_line_type.expected_only⟩
      (by simp [doDiffList, do_diff, diff_loop, diff_step, find_matching, findIndex,
                pull_matching, output_diff, drain_actual, listSource, listRead])

/-- Claim C9: for both line source implementations — the eager hydrated
cursor and the lazy stream — exhaustion is permanent: a read that reports
exhaustion leaves the state unchanged, and reading again from that state
reports exhaustion as well. -/
theorem claim_C9 :
    (∀ (s s' : List String × Nat), eagerRead s = (none, s') → eagerRead s' = (none, s'))
    ∧ (∀ (s s' : IfStream), lazyRead s = (none, s') → lazyRead s' = (none, s')) :=
  ⟨eagerSource.read_none, lazySource.read_none⟩

/-- Claim C9, witness: concrete exhausted states of both sources keep
reporting exhaustion. -/
theorem claim_C9_witness :
    eagerRead (["a"], 1) = (none, (["a"], 1))
    ∧ lazyRead ⟨['x'], false⟩ = (none, ⟨['x'], false⟩) :=
  ⟨claim_C9.1 (["a"], 1) (["a"], 1) (by simp [eagerRead]),
   claim_C9.2 ⟨['x'], false⟩ ⟨['x'], false⟩ (by simp [lazyRead])⟩

/-- Claim C10, counterexample: for the empty file contents (which do not end
with a line terminator) the property fails: the empty file is read as the
single line `""` while the file holding one newline is read as `["", ""]`,
and diffing against an empty actual file distinguishes them. -/
theorem claim_C10_counterexample :
    FileDiffer.diff_file_stdout_eager [] [] = ([], false)
    ∧ FileDiffer.diff_file_stdout_eager [newlineChar] [] =
        ([⟨"", diff_line_type.expected_only⟩], true)
    ∧ FileDiffer.diff_file_stdout_eager [] [] ≠
        FileDiffer.diff_file_stdout_eager [newlineChar] [] := by
  have h1 : FileDiffer.diff_file_stdout_eager [] [] = ([], false) := by
    simp [FileDiffer.diff_file_stdout_eager, do_diff, diff_loop, diff_step, find_matching,
          findIndex, pull_matching, output_diff, drain_actual, eagerSource, eagerRead,
          ifstreamLines, read_all_lines, getline, newlineChar]
  have h2 : FileDiffer.diff_file_stdout_eager [newlineChar] [] =
      ([⟨"", diff_line_type.expected_only⟩], true) := by
    simp [FileDiffer.diff_file_stdout_eager, do_diff, diff_loop, diff_step, find_matching,
          findIndex, pull_matching, output_diff, drain_actual, eagerSource, eagerRead,
          ifstreamLines, read_all_lines, getline, newlineChar]
  exact ⟨h1, h2, by rw [h1, h2]; simp⟩

/-- Claim C10 (amended): for every NONEMPTY file content that does not end
with a line terminator, appending a single trailing newline leaves the
result of both `file_differ` entry points unchanged, in either argument
position, because such content is read as the same line sequence in both
cases. -/
theorem claim_C10 (cs other : List Char) (h1 : cs ≠ [])
    (h2 : cs.getLast? ≠ some newlineChar) :
    FileDiffer.diff_file_stdout_eager (cs ++ [newlineChar]) other =
      FileDiffer.diff_file_stdout_eager cs other
    ∧ FileDiffer.diff_file_stdout (cs ++ [newlineChar]) other =
        FileDiffer.diff_file_stdout cs other
    ∧ FileDiffer.diff_file_stdout_eager other (cs ++ [newlineChar]) =
        FileDiffer.diff_file_stdout_eager other cs
    ∧ FileDiffer.diff_file_stdout other (cs ++ [newlineChar]) =
        FileDiffer.diff_file_stdout other cs := by
  have hl := ifstreamLines_append_nl cs h1 h2
  refine ⟨?_, ?_, ?_, ?_⟩
  · rw [eager_entry_eq, eager_entry_eq, hl]
  · rw [lazy_entry_eq, lazy_entry_eq, hl]
  · rw [eager_entry_eq, eager_entry_eq, hl]
  · rw [lazy_entry_eq, lazy_entry_eq, hl]

/-- Claim C10, witness: content `"a"` with a trailing newline appended diffs
identically to `"a"` itself against an empty actual file. -/
theorem claim_C10_witness :
    FileDiffer.diff_file_stdout_eager (['a'] ++ [newlineChar]) [] =
      FileDiffer.diff_file_stdout_eager ['a'] []
    ∧ FileDiffer.diff_file_stdout (['a'] ++ [newlineChar]) [] =
        FileDiffer.diff_file_stdout ['a'] []
    ∧ FileDiffer.diff_file_stdout_eager [] (['a'] ++ [newlineChar]) =
        FileDiffer.diff_file_stdout_eager [] ['a']
    ∧ FileDiffer.diff_file_stdout [] (['a'] ++ [newlineChar]) =
        FileDiffer.diff_file_stdout [] ['a'] :=
  claim_C10 ['a'] [] (by simp) (by decide)

end Nanodiff
